import Mathlib

/-!
# Verification of the QA-Monster analysis core

Shallow embedding of the pipeline components of the QA-Monster repository:
the large-file chunking strategy (`src/analysis/LargeCodebaseHandler.ts`),
the bounded-depth dependency discoverer (same file), the file cache
(`src/cache/CacheManager.ts`), the cost-bounded LLM client
(`src/llm/LLMService` part of `src/plugins/interfaces.ts` bundle), the
quality-gate rule engine (`src/quality/QualityGate.ts`) and the relevant
orchestrator fragments (`src/core/Agent.ts`).

Numbers that are JavaScript `number`s carrying money amounts, metric values
and thresholds are modelled as exact rationals (`ℚ`); counts and line
numbers as `ℕ`.  Asynchronous external calls (the language plugin, the
file system, the remote completion endpoint) are modelled as explicit
functional oracles passed to the embedded operations.
-/

/-! ## String helpers

`strIncludes s pat` models JavaScript `s.includes(pat)`. -/

/-- Does the pattern list occur at the head of the character list?
Models the anchored comparison step of JS `String.prototype.includes`. -/
def charsMatchHere : List Char → List Char → Bool
  | [], _ => true
  | _ :: _, [] => false
  | p :: ps, c :: cs => p == c && charsMatchHere ps cs

/-- Does the pattern occur anywhere inside the character list? -/
def charsSearch (pat : List Char) : List Char → Bool
  | [] => charsMatchHere pat []
  | c :: cs => charsMatchHere pat (c :: cs) || charsSearch pat cs

/-- JavaScript `s.includes(pat)` (substring containment). -/
def strIncludes (s pat : String) : Bool :=
  charsSearch pat.toList s.toList

/-- JavaScript `content.split('\n')`: Lean's `splitOn` has the same
behaviour for a one-character separator (empty string yields `[""]`,
trailing separator yields a trailing empty piece). -/
def splitLines (content : String) : List String :=
  content.splitOn "\n"

/-- JavaScript `lines.join('\n')`. -/
def joinLines (lines : List String) : String :=
  String.intercalate "\n" lines

/-- JavaScript `s.toLowerCase()`, as a per-character map (Lean's own
`String.toLower` is the same map but is not kernel-reducible). -/
def toLowerStr (s : String) : String :=
  String.mk (s.toList.map Char.toLower)

/-! ## Data model (`src/plugins/interfaces.ts`, `src/core/types.ts`) -/

/-- Embeds `ParameterInfo` from `src/plugins/interfaces.ts`. -/
structure ParameterInfo where
  name : String
  type : String
  optional : Bool
  defaultValue : Option String
deriving DecidableEq

/-- Embeds `FunctionInfo` from `src/plugins/interfaces.ts` (the optional
`complexity`/`body` fields are never consumed by the verified operations
and are elided). -/
structure FunctionInfo where
  name : String
  parameters : List ParameterInfo
  returnType : String
  isAsync : Bool
  lineStart : ℕ
  lineEnd : ℕ
deriving DecidableEq

/-- Embeds `PropertyInfo` from `src/plugins/interfaces.ts`. -/
structure PropertyInfo where
  name : String
  type : String
  optional : Bool
deriving DecidableEq

/-- Embeds `ClassInfo` from `src/plugins/interfaces.ts`. -/
structure ClassInfo where
  name : String
  methods : List FunctionInfo
  properties : List PropertyInfo
  lineStart : ℕ
  lineEnd : ℕ
deriving DecidableEq

/-- Embeds `ImportInfo` from `src/plugins/interfaces.ts`.  The TS field `from`
(the module specifier of the import statement) is a reserved word in Lean
and is embedded as `fromPath`; `imports` is the list of named bindings the
statement brings in. -/
structure ImportInfo where
  fromPath : String
  imports : List String
  isTypeOnly : Bool
  defaultImport : Option String
deriving DecidableEq

/-- Embeds `ExportInfo` from `src/plugins/interfaces.ts`; the `type` tag
(`'function' | 'class' | ...`) is kept as a string. -/
structure ExportInfo where
  name : String
  type : String
deriving DecidableEq

/-- Embeds `ParsedFile` from `src/plugins/interfaces.ts`.  The TS optional list
fields (`functions?`, `classes?`, ...) are embedded as plain lists: every
consuming operation treats an absent list and an empty list identically
(`x?.length || 0`, `x && x.length > 0`, `x?.map(...) || []`). -/
structure ParsedFile where
  path : String
  content : String
  functions : List FunctionInfo
  classes : List ClassInfo
  imports : List ImportInfo
  exports : List ExportInfo
deriving DecidableEq

/-- Embeds `Dependency` from `src/plugins/interfaces.ts`; the `type` tag is kept
as a string. -/
structure Dependency where
  path : String
  type : String
  relationship : String
  resolved : Bool
deriving DecidableEq

/-- Embeds `ComplexityMetrics` from `src/core/types.ts`. -/
structure ComplexityMetrics where
  cyclomatic : ℚ
  cognitive : ℚ
  linesOfCode : ℚ
  functionCount : ℚ
  dependencyCount : ℚ
deriving DecidableEq

/-- Embeds `TestScenario` from `src/core/types.ts`; the `type` and `priority`
tags are kept as strings. -/
structure TestScenario where
  name : String
  description : String
  type : String
  priority : String
  testSteps : List String
  expectedResult : String
deriving DecidableEq

/-- Embeds `Understanding` from `src/core/types.ts`. -/
structure Understanding where
  purpose : String
  mainFunctions : List FunctionInfo
  complexity : ComplexityMetrics
  edgeCases : List String
  errorConditions : List String
  testScenarios : List TestScenario
  confidence : ℚ
deriving DecidableEq

/-! ## LargeCodebaseHandler (`src/analysis/LargeCodebaseHandler.ts`) -/

/-- The `type` tag of a `CodeChunk` (`'function' | 'class' | 'constant' |
'data' | 'other'`); `cls` stands for the TS literal `'class'`, which is a
reserved word in Lean. -/
inductive ChunkType where
  | function
  | cls
  | constant
  | data
  | other
deriving DecidableEq

/-- Embeds `CodeChunk` from `src/analysis/LargeCodebaseHandler.ts`. -/
structure CodeChunk where
  startLine : ℕ
  endLine : ℕ
  content : String
  type : ChunkType
  name : Option String
deriving DecidableEq

/-- Embeds `MAX_FILE_SIZE` (characters). -/
def MAX_FILE_SIZE : ℕ := 50000

/-- Embeds `MAX_LINES_FOR_FULL_ANALYSIS`. -/
def MAX_LINES_FOR_FULL_ANALYSIS : ℕ := 1500

/-- Embeds `MAX_CHUNK_SIZE` (lines per fixed-window chunk). -/
def MAX_CHUNK_SIZE : ℕ := 1000

/-- Embeds `LargeCodebaseHandler.shouldChunk`. -/
def shouldChunk (file : ParsedFile) : Bool :=
  file.content.length > MAX_FILE_SIZE ||
    (splitLines file.content).length > MAX_LINES_FOR_FULL_ANALYSIS

/-- Embeds `LargeCodebaseHandler.isDataHeavy`: mostly-data files have an
`export const ... [` marker, fewer than 5 functions and no classes. -/
def isDataHeavy (file : ParsedFile) : Bool :=
  let content := toLowerStr file.content
  let hasLargeArray := strIncludes content "export const" && strIncludes content "["
  let functionCount := file.functions.length
  let classCount := file.classes.length
  hasLargeArray && functionCount < 5 && classCount == 0

/-- Embeds `LargeCodebaseHandler.sampleDataFile`: header / middle / footer samples
of 200 lines each.  `middleStart` is `⌊totalLines / 2⌋ - 100` exactly as in
the source (the subtraction cannot underflow on the guarded branch since
`totalLines > 400`). -/
def sampleDataFile (lines : List String) : List CodeChunk :=
  let totalLines := lines.length
  let sampleSize := 200
  let header : CodeChunk :=
    { startLine := 1
      endLine := min sampleSize totalLines
      content := joinLines (lines.take sampleSize)
      type := ChunkType.data
      name := some "header" }
  let middle : List CodeChunk :=
    if totalLines > sampleSize * 2 then
      let middleStart := totalLines / 2 - sampleSize / 2
      [{ startLine := middleStart
         endLine := middleStart + sampleSize
         content := joinLines ((lines.drop middleStart).take sampleSize)
         type := ChunkType.data
         name := some "middle" }]
    else []
  let footer : List CodeChunk :=
    if totalLines > sampleSize then
      [{ startLine := max 1 (totalLines - sampleSize)
         endLine := totalLines
         content := joinLines (lines.drop (totalLines - sampleSize))
         type := ChunkType.data
         name := some "footer" }]
    else []
  header :: (middle ++ footer)

/-- Embeds `LargeCodebaseHandler.chunkByFunctions`: one chunk per declared
function, spanning its exact line range. -/
def chunkByFunctions (file : ParsedFile) (lines : List String) : List CodeChunk :=
  file.functions.map fun func =>
    { startLine := func.lineStart
      endLine := func.lineEnd
      content := joinLines ((lines.drop (func.lineStart - 1)).take (func.lineEnd - (func.lineStart - 1)))
      type := ChunkType.function
      name := some func.name }

/-- Embeds `LargeCodebaseHandler.chunkByClasses`: one chunk per declared class. -/
def chunkByClasses (file : ParsedFile) (lines : List String) : List CodeChunk :=
  file.classes.map fun cls =>
    { startLine := cls.lineStart
      endLine := cls.lineEnd
      content := joinLines ((lines.drop (cls.lineStart - 1)).take (cls.lineEnd - (cls.lineStart - 1)))
      type := ChunkType.cls
      name := some cls.name }

/-- Loop of `LargeCodebaseHandler.chunkByLines`: `for (let i = 0; i <
lines.length; i += chunkSize)`, emitting the window `[i+1, min(i+1000,
totalLines)]` at each step. -/
def chunkByLinesGo (lines : List String) (i : ℕ) : List CodeChunk :=
  if h : i < lines.length then
    { startLine := i + 1
      endLine := min (i + MAX_CHUNK_SIZE) lines.length
      content := joinLines ((lines.drop i).take MAX_CHUNK_SIZE)
      type := ChunkType.other
      name := none } :: chunkByLinesGo lines (i + MAX_CHUNK_SIZE)
  else []
termination_by lines.length - i
decreasing_by
  simp [MAX_CHUNK_SIZE]
  omega

/-- Embeds `LargeCodebaseHandler.chunkByLines`: fixed windows of
`MAX_CHUNK_SIZE` lines. -/
def chunkByLines (lines : List String) : List CodeChunk :=
  chunkByLinesGo lines 0

/-- Embeds `LargeCodebaseHandler.chunkFile`: sampling for data-heavy files, else
structural chunking by functions, else by classes, else the fixed-window
fallback. -/
def chunkFile (file : ParsedFile) : List CodeChunk :=
  let lines := splitLines file.content
  if isDataHeavy file then
    sampleDataFile lines
  else if file.functions.length > 0 then
    chunkByFunctions file lines
  else if file.classes.length > 0 then
    chunkByClasses file lines
  else
    chunkByLines lines

/-! ## DependencyDiscoverer (`src/analysis/LargeCodebaseHandler.ts`, second
part of the bundle)

`plugin.parseFile` and `plugin.findDependencies` are asynchronous external
calls; they are modelled as functional oracles (`parseFile` returns `none`
when the TS promise rejects, matching the swallowed per-dependency
failure).  The batch loop (`Promise.all` over slices of 10) reads but
never writes the `discovered` set and appends its results to the queue in
dependency order, so it is embedded as a single left-to-right pass over
the dependency list. -/

/-- The capability-plugin interface consumed by the discoverer
(`LanguagePlugin` in `src/plugins/interfaces.ts`); only the two methods
the discoverer calls are embedded. -/
structure LanguagePlugin where
  name : String
  extensions : List String
  parseFile : String → Option ParsedFile
  findDependencies : ParsedFile → String → List Dependency

/-- Mutable state of one `discoverDependencies` run: the FIFO work queue
of `(file, depth)` pairs, the `discovered` path set, the accumulated
result list `files`, and — as verification instrumentation — the ordered
log `calls` of every path passed to `plugin.parseFile`. -/
structure DiscState where
  queue : List (ParsedFile × ℕ)
  discovered : List String
  files : List ParsedFile
  calls : List String
deriving DecidableEq

/-- One expansion: the batched dependency-resolution loop of
`discoverDependencies` for the dependency list of the current file, with
the `discovered` set as read at that point.  Returns the new queue
entries (parsed files at `depth + 1`, in dependency order) and the log of
`parseFile` invocations. -/
def expandDeps (plugin : LanguagePlugin) (discovered : List String)
    (deps : List Dependency) (depth : ℕ) : List (ParsedFile × ℕ) × List String :=
  match deps with
  | [] => ([], [])
  | dep :: rest =>
    let tail := expandDeps plugin discovered rest depth
    if discovered.contains dep.path then tail
    else
      match plugin.parseFile dep.path with
      | some depFile => ((depFile, depth + 1) :: tail.1, dep.path :: tail.2)
      | none => (tail.1, dep.path :: tail.2)

/-- The `while (queue.length > 0)` loop of
`DependencyDiscoverer.discoverDependencies`, with an explicit fuel bound
(`none` means the fuel ran out before the queue emptied). -/
def discoverLoop (plugin : LanguagePlugin) (projectRoot : String) (maxDepth : ℕ) :
    ℕ → DiscState → Option (List ParsedFile × List String)
  | 0, _ => none
  | fuel + 1, st =>
    match st.queue with
    | [] => some (st.files, st.calls)
    | (currentFile, depth) :: rest =>
      if maxDepth ≤ depth then
        discoverLoop plugin projectRoot maxDepth fuel { st with queue := rest }
      else if st.discovered.contains currentFile.path then
        discoverLoop plugin projectRoot maxDepth fuel { st with queue := rest }
      else
        let discovered2 := st.discovered ++ [currentFile.path]
        let files2 := if 0 < depth then st.files ++ [currentFile] else st.files
        let dependencies := plugin.findDependencies currentFile projectRoot
        let ex := expandDeps plugin discovered2 dependencies depth
        discoverLoop plugin projectRoot maxDepth fuel
          { queue := rest ++ ex.1
            discovered := discovered2
            files := files2
            calls := st.calls ++ ex.2 }

/-- Embeds `DependencyDiscoverer.discoverDependencies`: run the loop from the
seeded state `{(file, 0)}`.  The returned pair is the result list together
with the instrumentation log of `parseFile` calls. -/
def discoverDependencies (plugin : LanguagePlugin) (file : ParsedFile)
    (projectRoot : String) (maxDepth : ℕ) (fuel : ℕ) :
    Option (List ParsedFile × List String) :=
  discoverLoop plugin projectRoot maxDepth fuel
    { queue := [(file, 0)], discovered := [], files := [], calls := [] }

/-- Reachability over the import graph induced by the plugin oracles:
`Reach plugin projectRoot u n v` means `v` is reachable from `u` via `n`
dependency edges, each edge being a dependency reported by
`findDependencies` whose target path parses successfully. -/
inductive Reach (plugin : LanguagePlugin) (projectRoot : String) (u : ParsedFile) :
    ℕ → ParsedFile → Prop where
  | refl : Reach plugin projectRoot u 0 u
  | step {v w : ParsedFile} {m : ℕ} {dep : Dependency} :
      Reach plugin projectRoot u m v →
      dep ∈ plugin.findDependencies v projectRoot →
      plugin.parseFile dep.path = some w →
      Reach plugin projectRoot u (m + 1) w

/-! ## CacheManager (`src/cache/CacheManager.ts`)

The file system and the content-hash function are oracles: `fs p` is the
current content of file `p` (`none` when reading fails), and `hash` is the
md5 digest function, opaque here.  The `fileCache` JS `Map` is embedded as
a function from paths to optional entries. -/

/-- Embeds `CachedFile` from `src/cache/CacheManager.ts`. -/
structure CachedFile where
  content : ParsedFile
  hash : String
  timestamp : ℕ

/-- The `fileCache` map. -/
def FileCache : Type := String → Option CachedFile

/-- Embeds `CacheManager.hashFile`: digest of the file's current content, the
empty string when the read fails (the TS `catch` branch). -/
def hashFile (hash : String → String) (fs : String → Option String) (filePath : String) : String :=
  match fs filePath with
  | some content => hash content
  | none => ""

/-- Embeds `CacheManager.setParsedFile`: store the value together with the
fingerprint of the file's content at store time. -/
def setParsedFile (hash : String → String) (fs : String → Option String)
    (cache : FileCache) (filePath : String) (content : ParsedFile) (now : ℕ) : FileCache :=
  fun q =>
    if q = filePath then some { content := content, hash := hashFile hash fs filePath, timestamp := now }
    else cache q

/-- Embeds `CacheManager.getParsedFile`: recompute the fingerprint of the file's
current content; on mismatch drop the stale entry and miss.  Returns the
looked-up value together with the cache state after the call. -/
def getParsedFile (hash : String → String) (fs : String → Option String)
    (cache : FileCache) (filePath : String) : Option ParsedFile × FileCache :=
  match cache filePath with
  | none => (none, cache)
  | some cached =>
    if hashFile hash fs filePath = cached.hash then (some cached.content, cache)
    else (none, fun q => if q = filePath then none else cache q)

/-! ## LLMService (`src/llm/LLMService.ts`, bundled in
`src/plugins/interfaces.ts`)

The remote chat-completion call is the sole network dependency; one call
is modelled by a `RemoteOutcome` oracle describing what the `try` block
observes: either the promise rejects (`raise`, carrying whether the thrown
value is an `Error` and its message), or it resolves to a response whose
first-choice message content, token usage and `JSON.parse` result are
given.  `parsed = none` models a `JSON.parse` throw.  Costs are exact
rationals; the estimate uses the source constants 0.8, 0.2, $0.0005/1k
and $0.0015/1k written as fractions. -/

/-- Mutable per-instance state of `LLMService`: the spend ledger
`totalCost` and the instance-level `costLimit`. -/
structure LLMState where
  totalCost : ℚ
  costLimit : ℚ
deriving DecidableEq

/-- Embeds `LLMService.estimateCost`: tokens ≈ characters / 4, split 80 % input
at $0.0005/1k and 20 % output at $0.0015/1k. -/
def estimateCost (prompt : String) : ℚ :=
  let tokens : ℚ := (prompt.length : ℚ) / 4
  let inputCost := tokens * (4 / 5) / 1000 * (1 / 2000)
  let outputCost := tokens * (1 / 5) / 1000 * (3 / 2000)
  inputCost + outputCost

/-- Embeds `LLMService.calculateCost` from the reported token usage. -/
def calculateCost (inputTokens outputTokens : ℕ) : ℚ :=
  (inputTokens : ℚ) / 1000 * (1 / 2000) + (outputTokens : ℚ) / 1000 * (3 / 2000)

/-- The shape `JSON.parse` delivers to `normalizeUnderstanding`: every
field may be absent. -/
structure LLMParsed where
  purpose : Option String
  mainFunctions : Option (List FunctionInfo)
  complexity : Option ComplexityMetrics
  edgeCases : Option (List String)
  errorConditions : Option (List String)
  testScenarios : Option (List TestScenario)
  confidence : Option ℚ
deriving DecidableEq

/-- Embeds `LLMService.normalizeUnderstanding`: JS `||` defaulting — for the
string `purpose` and the number `confidence` the falsy values `''` and `0`
are also replaced; arrays and objects are replaced only when absent. -/
def normalizeUnderstanding (parsed : LLMParsed) : Understanding :=
  { purpose :=
      match parsed.purpose with
      | some s => if s = "" then "Unknown" else s
      | none => "Unknown"
    mainFunctions := parsed.mainFunctions.getD []
    complexity := parsed.complexity.getD ⟨0, 0, 0, 0, 0⟩
    edgeCases := parsed.edgeCases.getD []
    errorConditions := parsed.errorConditions.getD []
    testScenarios := parsed.testScenarios.getD []
    confidence :=
      match parsed.confidence with
      | some c => if c = 0 then 1 / 2 else c
      | none => 1 / 2 }

/-- Embeds `LLMService.fallbackUnderstanding` (the TS method ignores its
`context` argument and returns this constant). -/
def fallbackUnderstanding : Understanding :=
  { purpose := "Could not analyze - LLM error"
    mainFunctions := []
    complexity := ⟨0, 0, 0, 0, 0⟩
    edgeCases := []
    errorConditions := []
    testScenarios := []
    confidence := 1 / 10 }

/-- What the `try` block of `understandCode` observes from the remote
completion call. -/
inductive RemoteOutcome where
  | reply (content : Option String) (promptTokens completionTokens : ℕ)
      (parsed : Option LLMParsed)
  | raise (isError : Bool) (message : String)
deriving DecidableEq

/-- An error escaping `understandCode`: the fast-fail cost-limit error
thrown before the `try` block, or a re-thrown upstream error whose message
passed the `includes('cost limit')` test in the `catch`. -/
inductive LLMFailure where
  | costLimitExceeded (message : String)
  | raised (message : String)
deriving DecidableEq

/-- Decidable equality for `Except`, needed to evaluate concrete
`understandCode` outcomes. -/
instance exceptDecEq {ε α : Type} [DecidableEq ε] [DecidableEq α] :
    DecidableEq (Except ε α) := fun x y =>
  match x, y with
  | Except.error e, Except.error f => decidable_of_iff (e = f) (by simp)
  | Except.ok a, Except.ok b => decidable_of_iff (a = b) (by simp)
  | Except.error _, Except.ok _ => isFalse (fun hc => Except.noConfusion hc)
  | Except.ok _, Except.error _ => isFalse (fun hc => Except.noConfusion hc)

/-- Result of one `understandCode` call: the returned value or escaping
error, the spend ledger after the call, and — as verification
instrumentation — the number of remote completion invocations issued. -/
structure LLMCallResult where
  outcome : Except LLMFailure Understanding
  totalCost : ℚ
  remoteCalls : ℕ
deriving DecidableEq

/-- Embeds `const limit = costLimit || this.costLimit`: an absent — or zero,
since `0` is falsy — per-call limit falls back to the instance limit. -/
def effectiveLimit (st : LLMState) (costLimit : Option ℚ) : ℚ :=
  match costLimit with
  | some l => if l = 0 then st.costLimit else l
  | none => st.costLimit

/-- Embeds `LLMService.understandCode` over a prompt already built by
`buildUnderstandingPrompt` (prompt construction is outside this core; the
cost logic reads only the prompt's length).  Before the `try` block: if
`totalCost + estimate > limit`, throw the cost-limit error with no remote
call and the ledger untouched.  Inside the `try`: a missing message
content raises `Error('No response from LLM')`, which the `catch`
swallows into the fallback (its message does not contain `'cost limit'`);
the actual cost from the reported usage is added to the ledger before
`JSON.parse` runs, so a parse failure still charges the ledger; a thrown
upstream value is re-thrown only when it is an `Error` whose message
contains `'cost limit'`, and every other failure degrades to
`fallbackUnderstanding`. -/
def understandCode (st : LLMState) (prompt : String) (costLimit : Option ℚ)
    (remote : RemoteOutcome) : LLMCallResult :=
  let estimatedCost := estimateCost prompt
  let limit := effectiveLimit st costLimit
  if st.totalCost + estimatedCost > limit then
    { outcome := Except.error (LLMFailure.costLimitExceeded "Cost limit exceeded.")
      totalCost := st.totalCost
      remoteCalls := 0 }
  else
    match remote with
    | RemoteOutcome.raise isError message =>
      if isError && strIncludes message "cost limit" then
        { outcome := Except.error (LLMFailure.raised message)
          totalCost := st.totalCost
          remoteCalls := 1 }
      else
        { outcome := Except.ok fallbackUnderstanding
          totalCost := st.totalCost
          remoteCalls := 1 }
    | RemoteOutcome.reply content promptTokens completionTokens parsed =>
      match content with
      | none =>
        { outcome := Except.ok fallbackUnderstanding
          totalCost := st.totalCost
          remoteCalls := 1 }
      | some _ =>
        let newTotal := st.totalCost + calculateCost promptTokens completionTokens
        match parsed with
        | none =>
          { outcome := Except.ok fallbackUnderstanding
            totalCost := newTotal
            remoteCalls := 1 }
        | some p =>
          { outcome := Except.ok (normalizeUnderstanding p)
            totalCost := newTotal
            remoteCalls := 1 }

/-! ## QualityGate (`src/quality/QualityGate.ts`) -/

/-- The `metric` tag of a rule. -/
inductive Metric where
  | security
  | complexity
  | coverage
  | testability
  | sast
deriving DecidableEq

/-- The comparison `operator` tag of a rule. -/
inductive Operator where
  | gt
  | lt
  | eq
  | gte
  | lte
deriving DecidableEq

/-- The `severity` tag of a rule. -/
inductive Severity where
  | error
  | warning
deriving DecidableEq

/-- Embeds `QualityGateRule` from `src/quality/QualityGate.ts`. -/
structure QualityGateRule where
  id : String
  name : String
  metric : Metric
  threshold : ℚ
  operator : Operator
  severity : Severity
  message : String
deriving DecidableEq

/-- One element of `QualityGateResult.rules`. -/
structure RuleOutcome where
  rule : QualityGateRule
  passed : Bool
  actualValue : ℚ
  message : String
deriving DecidableEq

/-- The `summary` tallies of `QualityGateResult`. -/
structure GateSummary where
  total : ℕ
  passed : ℕ
  failed : ℕ
  warnings : ℕ
deriving DecidableEq

/-- Embeds `QualityGateResult` from `src/quality/QualityGate.ts`. -/
structure QualityGateResult where
  passed : Bool
  rules : List RuleOutcome
  summary : GateSummary
deriving DecidableEq

/-- The `understanding.target` sub-object of `QAInputPackage`
(`src/core/types.ts`); only the fields the gate reads are embedded. -/
structure UnderstandingTarget where
  file : String
  purpose : String
  mainFunctions : List FunctionInfo
  complexity : ComplexityMetrics
deriving DecidableEq

/-- The `understanding` section of `QAInputPackage`. -/
structure PackageUnderstanding where
  target : UnderstandingTarget
  confidence : ℚ
  completeness : ℚ
deriving DecidableEq

/-- The `summary` of a security scan result; the gate reads only the
`critical` count. -/
structure ScanSummary where
  critical : ℚ
deriving DecidableEq

/-- Embeds `security.sca` entry (`SecurityScanResult`). -/
structure SecurityScanResult where
  summary : ScanSummary
deriving DecidableEq

/-- Embeds `security.sast` entry (`SASTResult`). -/
structure SASTResult where
  summary : ScanSummary
deriving DecidableEq

/-- The optional `security` section of `QAInputPackage`. -/
structure SecuritySection where
  sca : Option SecurityScanResult
  sast : Option SASTResult
deriving DecidableEq

/-- The `insights` section of `QAInputPackage`; `testability` is the
string tag `'high' | 'medium' | 'low'`. -/
structure PackageInsights where
  testability : String
deriving DecidableEq

/-- The slice of `QAInputPackage` (`src/core/types.ts`) that
`QualityGate.evaluate` reads. -/
structure QAInputPackage where
  understanding : PackageUnderstanding
  insights : PackageInsights
  security : Option SecuritySection
deriving DecidableEq

/-- Embeds `QualityGate.getMetricValue`: resolve a metric tag to a number from
the package (optional chains defaulting to 0, the testability ordinal
table, coverage hard-wired to 0). -/
def getMetricValue (qaPackage : QAInputPackage) (metric : Metric) : ℚ :=
  match metric with
  | Metric.security =>
    let scaCritical :=
      match qaPackage.security with
      | some sec => match sec.sca with
        | some sca => sca.summary.critical
        | none => 0
      | none => 0
    let sastCritical :=
      match qaPackage.security with
      | some sec => match sec.sast with
        | some sast => sast.summary.critical
        | none => 0
      | none => 0
    scaCritical + sastCritical
  | Metric.sast =>
    match qaPackage.security with
    | some sec => match sec.sast with
      | some sast => sast.summary.critical
      | none => 0
    | none => 0
  | Metric.complexity => qaPackage.understanding.target.complexity.cyclomatic
  | Metric.coverage => 0
  | Metric.testability =>
    if qaPackage.insights.testability = "high" then 3
    else if qaPackage.insights.testability = "medium" then 2
    else if qaPackage.insights.testability = "low" then 1
    else 0

/-- Embeds `QualityGate.evaluateRule`: apply the rule's comparison operator. -/
def evaluateRule (rule : QualityGateRule) (actualValue : ℚ) : Bool :=
  match rule.operator with
  | Operator.gt => decide (actualValue > rule.threshold)
  | Operator.lt => decide (actualValue < rule.threshold)
  | Operator.eq => decide (actualValue = rule.threshold)
  | Operator.gte => decide (actualValue ≥ rule.threshold)
  | Operator.lte => decide (actualValue ≤ rule.threshold)

/-- Embeds `QualityGate.getOperatorSymbol`. -/
def getOperatorSymbol (operator : Operator) : String :=
  match operator with
  | Operator.gt => ">"
  | Operator.lt => "<"
  | Operator.eq => "=="
  | Operator.gte => ">="
  | Operator.lte => "<="

/-- The body of the `for (const rule of this.rules)` loop in
`QualityGate.evaluate`, producing one `RuleOutcome` (the `⚠️`/`❌` ternary
of the failure message is reproduced even though it is constant on that
branch). -/
def evalOneRule (qaPackage : QAInputPackage) (rule : QualityGateRule) : RuleOutcome :=
  let actualValue := getMetricValue qaPackage rule.metric
  let passed := evaluateRule rule actualValue
  let marker := if passed then "⚠️" else "❌"
  { rule := rule
    passed := passed
    actualValue := actualValue
    message :=
      if passed then s!"✅ {rule.name}: Passed ({actualValue})"
      else s!"{marker} {rule.name}: Failed ({actualValue} {getOperatorSymbol rule.operator} {rule.threshold})" }

/-- Embeds `QualityGate.evaluate` over the instance's rule list: per-rule
outcomes, the summary tallies (`failed` counts error-severity failures
only), and the aggregate `passed = (summary.failed === 0)`. -/
def evaluate (rules : List QualityGateRule) (qaPackage : QAInputPackage) : QualityGateResult :=
  let ruleResults := rules.map (evalOneRule qaPackage)
  let summary : GateSummary :=
    { total := ruleResults.length
      passed := (ruleResults.filter (fun r => r.passed)).length
      failed := (ruleResults.filter (fun r => !r.passed && r.rule.severity == Severity.error)).length
      warnings := (ruleResults.filter (fun r => !r.passed && r.rule.severity == Severity.warning)).length }
  { passed := summary.failed == 0
    rules := ruleResults
    summary := summary }

/-! ## Orchestrator fragments (`src/core/Agent.ts`) -/

/-- Embeds `ProcessOptions` from `src/core/types.ts` (each field optional). -/
structure ProcessOptions where
  maxDependencyDepth : Option ℕ
  includeTransitive : Option Bool
  costLimit : Option ℚ
  verbose : Option Bool
deriving DecidableEq

/-- The depth normalization in `CodeReadingAgent.process`:
`options?.maxDependencyDepth || 2` — an absent options object, an absent
field, or the falsy value `0` all yield the default `2`. -/
def processMaxDepth (options : Option ProcessOptions) : ℕ :=
  match options with
  | none => 2
  | some o =>
    match o.maxDependencyDepth with
    | none => 2
    | some n => if n = 0 then 2 else n

/-- Embeds `CodeReadingAgent.selectRelevantDependencies`: keep a dependency when
one of its export names is a member of the set built from the `from`
fields (module specifiers) of the target's import statements. -/
def selectRelevantDependencies (target : ParsedFile) (dependencies : List ParsedFile) :
    List ParsedFile :=
  let usedImports := target.imports.map (fun i => i.fromPath)
  dependencies.filter fun dep =>
    let depExports := dep.exports.map (fun e => e.name)
    depExports.any (fun exp => usedImports.contains exp)

/-- Modelled from the claim's wording (for comparison with the code, not
taken from it): the names actually brought into scope by the target's
importing statements — the named bindings of each one plus its default
binding when present. -/
def specImportedNames (target : ParsedFile) : List String :=
  target.imports.flatMap fun i =>
    i.imports ++ (match i.defaultImport with
      | some d => [d]
      | none => [])

/-! ## Concrete fixtures used by counterexamples and witnesses -/

/-- A minimal root file. -/
def rootF : ParsedFile :=
  { path := "r.ts", content := "", functions := [], classes := [], imports := [], exports := [] }

/-- A minimal dependency file. -/
def fileX : ParsedFile :=
  { path := "x.ts", content := "", functions := [], classes := [], imports := [], exports := [] }

/-- The dependency edge pointing at `fileX`. -/
def depX : Dependency :=
  { path := "x.ts", type := "direct", relationship := "import", resolved := true }

/-- A plugin whose import graph is the single edge `r.ts → x.ts`. -/
def plugin1 : LanguagePlugin :=
  { name := "typescript"
    extensions := [".ts"]
    parseFile := fun p => if p = "x.ts" then some fileX else none
    findDependencies := fun f _ => if f.path = "r.ts" then [depX] else [] }

/-- A plugin whose root dependency list mentions the same path `x.ts`
twice (two edges from the same parent). -/
def plugin2 : LanguagePlugin :=
  { name := "typescript"
    extensions := [".ts"]
    parseFile := fun p => if p = "x.ts" then some fileX else none
    findDependencies := fun f _ => if f.path = "r.ts" then [depX, depX] else [] }

/-- The empty file cache. -/
def emptyFileCache : FileCache := fun _ => none

/-- A parse-succeeds remote reply whose JSON object is empty. -/
def emptyParsed : LLMParsed := ⟨none, none, none, none, none, none, none⟩

/-- A successful remote outcome with zero reported usage. -/
def replyOK : RemoteOutcome := RemoteOutcome.reply (some "{}") 0 0 (some emptyParsed)

/-! ## C5 — cache fingerprint soundness -/

/-- Claim C5: after `setParsedFile(p, v)`, a later `getParsedFile(p)`
returns exactly the stored object `v` when the fingerprint of `p`'s
current content equals the one stored at set time, and on a fingerprint
mismatch it misses, deleting the stale entry so that it is no longer
present afterwards.  `fs0`/`fs1` are the file-system contents at set time
and at get time. -/
theorem c5_cache_fingerprint (hash : String → String) (fs0 fs1 : String → Option String)
    (cache : FileCache) (p : String) (v : ParsedFile) (now : ℕ) :
    (hashFile hash fs1 p = hashFile hash fs0 p →
      getParsedFile hash fs1 (setParsedFile hash fs0 cache p v now) p
        = (some v, setParsedFile hash fs0 cache p v now))
    ∧ (hashFile hash fs1 p ≠ hashFile hash fs0 p →
      (getParsedFile hash fs1 (setParsedFile hash fs0 cache p v now) p).1 = none
      ∧ (getParsedFile hash fs1 (setParsedFile hash fs0 cache p v now) p).2 p = none) := by
  constructor
  · intro heq
    simp [getParsedFile, setParsedFile, heq]
  · intro hne
    simp [getParsedFile, setParsedFile, hne]

/-- Witness for C5 at a concrete file system: content `"A"` at set time,
hit when unchanged, miss-and-drop when the content becomes `"B"`. -/
theorem c5_cache_fingerprint_witness :
    (getParsedFile (fun s => s) (fun _ => some "A")
        (setParsedFile (fun s => s) (fun _ => some "A") emptyFileCache "f.ts" rootF 0) "f.ts"
      = (some rootF,
          setParsedFile (fun s => s) (fun _ => some "A") emptyFileCache "f.ts" rootF 0))
    ∧ ((getParsedFile (fun s => s) (fun _ => some "B")
        (setParsedFile (fun s => s) (fun _ => some "A") emptyFileCache "f.ts" rootF 0) "f.ts").1
        = none
      ∧ (getParsedFile (fun s => s) (fun _ => some "B")
          (setParsedFile (fun s => s) (fun _ => some "A") emptyFileCache "f.ts" rootF 0) "f.ts").2
          "f.ts" = none) :=
  ⟨(c5_cache_fingerprint (fun s => s) (fun _ => some "A") (fun _ => some "A")
      emptyFileCache "f.ts" rootF 0).1 rfl,
    (c5_cache_fingerprint (fun s => s) (fun _ => some "A") (fun _ => some "B")
      emptyFileCache "f.ts" rootF 0).2 (by decide)⟩

/-! ## C7 — fixed-window fallback coverage -/

/-- Full characterization of the fixed-window loop via `get?`: the `k`-th
window exists iff its first line `i + 1000k` is inside the file, and then
spans lines `i + 1000k + 1` through `min (i + 1000(k+1)) totalLines` with
kind `other`. -/
lemma chunkByLinesGo_get? (lines : List String) :
    ∀ n i, lines.length ≤ i + n →
      ∀ k, (chunkByLinesGo lines i).get? k
        = if i + 1000 * k < lines.length then
            some { startLine := i + 1000 * k + 1
                   endLine := min (i + 1000 * (k + 1)) lines.length
                   content := joinLines ((lines.drop (i + 1000 * k)).take 1000)
                   type := ChunkType.other
                   name := none }
          else none := by
  intro n
  induction n with
  | zero =>
    intro i hi k
    have hnot : ¬ i < lines.length := by omega
    rw [chunkByLinesGo]
    rw [dif_neg hnot, if_neg (by omega)]
    rfl
  | succ n ih =>
    intro i hi k
    by_cases h : i < lines.length
    · rw [chunkByLinesGo]
      rw [dif_pos h]
      simp only [MAX_CHUNK_SIZE]
      cases k with
      | zero =>
        rw [List.get?_cons_zero, if_pos (by omega)]
        norm_num
      | succ k =>
        rw [List.get?_cons_succ, ih (i + 1000) (by omega) k]
        have e1 : i + 1000 + 1000 * k = i + 1000 * (k + 1) := by ring
        have e2 : i + 1000 + 1000 * (k + 1) = i + 1000 * (k + 1 + 1) := by ring
        rw [e1, e2]
    · rw [chunkByLinesGo]
      rw [dif_neg h, if_neg (by omega)]
      rfl

/-- Index bound of the fixed-window loop, derived from
`chunkByLinesGo_get?`. -/
lemma chunkByLinesGo_length_iff (lines : List String) (i k : ℕ) :
    k < (chunkByLinesGo lines i).length ↔ i + 1000 * k < lines.length := by
  have hq := chunkByLinesGo_get? lines lines.length i (by omega) k
  constructor
  · intro hk
    by_contra hcond
    rw [if_neg hcond] at hq
    rw [List.get?_eq_none] at hq
    omega
  · intro hcond
    by_contra hk
    rw [if_pos hcond] at hq
    have : (chunkByLinesGo lines i).get? k = none := List.get?_eq_none.mpr (by omega)
    rw [this] at hq
    exact Option.noConfusion hq

/-- Under the fixed-window-fallback hypotheses, `chunkFile` routes to
`chunkByLines`. -/
lemma chunkFile_fallback (file : ParsedFile)
    (hf : file.functions = []) (hc : file.classes = [])
    (hd : isDataHeavy file = false) :
    chunkFile file = chunkByLinesGo (splitLines file.content) 0 := by
  simp [chunkFile, chunkByLines, hf, hc, hd]

set_option maxRecDepth 2048 in
/-- Projections of the `k`-th chunk of the fallback, in terms of
`chunkFile`. -/
lemma chunkFile_fallback_get (file : ParsedFile)
    (hf : file.functions = []) (hc : file.classes = [])
    (hd : isDataHeavy file = false)
    (k : ℕ) (hk : k < (chunkFile file).length) :
    ((chunkFile file).get ⟨k, hk⟩).type = ChunkType.other
    ∧ ((chunkFile file).get ⟨k, hk⟩).startLine = 1000 * k + 1
    ∧ ((chunkFile file).get ⟨k, hk⟩).endLine
        = min (1000 * (k + 1)) (splitLines file.content).length := by
  have hroute := chunkFile_fallback file hf hc hd
  have h1 : (chunkFile file).get? k = some ((chunkFile file).get ⟨k, hk⟩) :=
    List.get?_eq_get hk
  set c := (chunkFile file).get ⟨k, hk⟩ with hcdef
  rw [hroute] at h1
  have hk0 : k < (chunkByLinesGo (splitLines file.content) 0).length := by
    rw [← hroute]; exact hk
  have hcond : 0 + 1000 * k < (splitLines file.content).length :=
    (chunkByLinesGo_length_iff (splitLines file.content) 0 k).mp hk0
  rw [chunkByLinesGo_get? (splitLines file.content) (splitLines file.content).length 0
      (by omega) k, if_pos hcond] at h1
  have hc2 := Option.some.inj h1
  rw [← hc2]
  refine ⟨rfl, by simp, by simp⟩

/-- Claim C7: for every file that falls to the fixed-window fallback (no
detected functions, no detected classes, not data-heavy), `chunkFile`
returns chunks of kind `other` where the `k`-th chunk spans lines
`1000k + 1` through `min (1000(k+1), totalLines)`, and every line of the
input lies in exactly one chunk. -/
theorem c7_fixed_window_coverage (file : ParsedFile)
    (hf : file.functions = []) (hc : file.classes = [])
    (hd : isDataHeavy file = false) :
    (∀ k (hk : k < (chunkFile file).length),
      ((chunkFile file).get ⟨k, hk⟩).type = ChunkType.other
      ∧ ((chunkFile file).get ⟨k, hk⟩).startLine = 1000 * k + 1
      ∧ ((chunkFile file).get ⟨k, hk⟩).endLine
          = min (1000 * (k + 1)) (splitLines file.content).length)
    ∧ (∀ l, 1 ≤ l → l ≤ (splitLines file.content).length →
        ∃ k, ∃ hk : k < (chunkFile file).length,
          ((chunkFile file).get ⟨k, hk⟩).startLine ≤ l
          ∧ l ≤ ((chunkFile file).get ⟨k, hk⟩).endLine
          ∧ ∀ j (hj : j < (chunkFile file).length),
              ((chunkFile file).get ⟨j, hj⟩).startLine ≤ l →
              l ≤ ((chunkFile file).get ⟨j, hj⟩).endLine → j = k) := by
  have hroute := chunkFile_fallback file hf hc hd
  refine ⟨chunkFile_fallback_get file hf hc hd, ?_⟩
  intro l hl1 hl2
  have hdm := Nat.div_add_mod (l - 1) 1000
  have hmlt : (l - 1) % 1000 < 1000 := Nat.mod_lt _ (by omega)
  have hk : (l - 1) / 1000 < (chunkFile file).length := by
    rw [hroute]
    rw [chunkByLinesGo_length_iff]
    omega
  refine ⟨(l - 1) / 1000, hk, ?_⟩
  have hspec := chunkFile_fallback_get file hf hc hd ((l - 1) / 1000) hk
  refine ⟨?_, ?_, ?_⟩
  · rw [hspec.2.1]; omega
  · rw [hspec.2.2, Nat.min_def]; split <;> omega
  · intro j hj hjs hje
    have hspecj := chunkFile_fallback_get file hf hc hd j hj
    rw [hspecj.2.1] at hjs
    rw [hspecj.2.2, Nat.min_def] at hje
    rcases Nat.lt_or_ge (1000 * (j + 1)) (splitLines file.content).length with hc2 | hc2
    · rw [if_pos (by omega)] at hje
      omega
    · by_cases hcc : 1000 * (j + 1) ≤ (splitLines file.content).length
      · rw [if_pos hcc] at hje
        omega
      · rw [if_neg hcc] at hje
        omega

/-- A two-line file with no functions and no classes, used as the C7
witness input. -/
def fileW : ParsedFile :=
  { path := "w.ts", content := "a\nb", functions := [], classes := [],
    imports := [], exports := [] }

/-- Witness for C7 at the concrete two-line file `fileW`. -/
theorem c7_fixed_window_coverage_witness :
    (∀ k (hk : k < (chunkFile fileW).length),
      ((chunkFile fileW).get ⟨k, hk⟩).type = ChunkType.other
      ∧ ((chunkFile fileW).get ⟨k, hk⟩).startLine = 1000 * k + 1
      ∧ ((chunkFile fileW).get ⟨k, hk⟩).endLine
          = min (1000 * (k + 1)) (splitLines fileW.content).length)
    ∧ (∀ l, 1 ≤ l → l ≤ (splitLines fileW.content).length →
        ∃ k, ∃ hk : k < (chunkFile fileW).length,
          ((chunkFile fileW).get ⟨k, hk⟩).startLine ≤ l
          ∧ l ≤ ((chunkFile fileW).get ⟨k, hk⟩).endLine
          ∧ ∀ j (hj : j < (chunkFile fileW).length),
              ((chunkFile fileW).get ⟨j, hj⟩).startLine ≤ l →
              l ≤ ((chunkFile fileW).get ⟨j, hj⟩).endLine → j = k) :=
  c7_fixed_window_coverage fileW rfl rfl (by decide)

/-! ## C1 — cost-limit fast fail -/

/-- With a nonzero (or absent) per-call limit, the effective limit is the
per-call limit when given, else the instance limit. -/
lemma effectiveLimit_of_ne_zero (st : LLMState) (costLimit : Option ℚ)
    (hnz : costLimit ≠ some 0) :
    effectiveLimit st costLimit = costLimit.getD st.costLimit := by
  cases costLimit with
  | none => rfl
  | some l =>
    have hl : l ≠ 0 := fun h => hnz (by rw [h])
    simp [effectiveLimit, hl]

/-- On the over-budget branch `understandCode` is the fast-fail record. -/
lemma understandCode_over_budget (st : LLMState) (prompt : String)
    (costLimit : Option ℚ) (remote : RemoteOutcome)
    (hover : st.totalCost + estimateCost prompt > effectiveLimit st costLimit) :
    understandCode st prompt costLimit remote
      = { outcome := Except.error (LLMFailure.costLimitExceeded "Cost limit exceeded.")
          totalCost := st.totalCost
          remoteCalls := 0 } := by
  simp only [understandCode, if_pos hover]

/-- Claim C1 (amended): for a per-call cost ceiling that is not the falsy
value `0` (or for no per-call ceiling, in which case the instance ceiling
applies), a call whose estimate would push the ledger past the ceiling
raises the cost-limit error, performs zero remote completion invocations
and leaves the spend ledger unchanged. -/
theorem c1_cost_limit_fast_fail (st : LLMState) (prompt : String)
    (costLimit : Option ℚ) (remote : RemoteOutcome)
    (hnz : costLimit ≠ some 0)
    (hover : st.totalCost + estimateCost prompt > costLimit.getD st.costLimit) :
    (understandCode st prompt costLimit remote).outcome
      = Except.error (LLMFailure.costLimitExceeded "Cost limit exceeded.")
    ∧ (understandCode st prompt costLimit remote).remoteCalls = 0
    ∧ (understandCode st prompt costLimit remote).totalCost = st.totalCost := by
  have hlim := effectiveLimit_of_ne_zero st costLimit hnz
  rw [← hlim] at hover
  rw [understandCode_over_budget st prompt costLimit remote hover]
  exact ⟨rfl, rfl, rfl⟩

/-- Witness for C1: ledger at $10 against an instance ceiling of $5 with
no per-call ceiling — the call errors out with no remote invocation. -/
theorem c1_cost_limit_fast_fail_witness :
    (understandCode ⟨10, 5⟩ "aaaa" none replyOK).outcome
      = Except.error (LLMFailure.costLimitExceeded "Cost limit exceeded.")
    ∧ (understandCode ⟨10, 5⟩ "aaaa" none replyOK).remoteCalls = 0
    ∧ (understandCode ⟨10, 5⟩ "aaaa" none replyOK).totalCost = 10 :=
  c1_cost_limit_fast_fail ⟨10, 5⟩ "aaaa" none replyOK (fun h => Option.noConfusion h)
    (by norm_num [estimateCost, show "aaaa".length = 4 from rfl])

/-- Counterexample to C1 as stated: with an explicit per-call ceiling of
`0` the guard `costLimit || this.costLimit` discards it in favour of the
instance ceiling, so a call whose ledger-plus-estimate exceeds the given
ceiling `0` still performs one remote invocation and succeeds instead of
raising the cost-limit error. -/
theorem c1_counterexample :
    (0 : ℚ) + estimateCost "aaaa" > 0
    ∧ (understandCode ⟨0, 10⟩ "aaaa" (some 0) replyOK).remoteCalls = 1
    ∧ (understandCode ⟨0, 10⟩ "aaaa" (some 0) replyOK).outcome
        = Except.ok (normalizeUnderstanding emptyParsed) := by
  have hg : ¬ ((⟨0, 10⟩ : LLMState).totalCost + estimateCost "aaaa"
      > effectiveLimit ⟨0, 10⟩ (some 0)) := by
    simp only [effectiveLimit, if_pos rfl]
    norm_num [estimateCost, show "aaaa".length = 4 from rfl]
  have heq : understandCode ⟨0, 10⟩ "aaaa" (some 0) replyOK
      = { outcome := Except.ok (normalizeUnderstanding emptyParsed)
          totalCost := (0 : ℚ) + calculateCost 0 0
          remoteCalls := 1 } := by
    simp only [understandCode, if_neg hg, replyOK]
  rw [heq]
  refine ⟨by norm_num [estimateCost, show "aaaa".length = 4 from rfl], rfl, rfl⟩

/-! ## C8 — soft degradation on non-cost errors -/

/-- Claim C8: when the remote call (or the handling of its response)
fails with anything the `catch` does not classify as a cost-limit error —
a thrown value that is not an `Error` or whose message does not contain
`'cost limit'` — `understandCode` swallows it and returns the fallback
`Understanding` (confidence 0.1, empty main-function / edge-case /
error-condition / test-scenario lists); and on the ledger-respecting path
the only errors that escape at all are re-thrown cost-limit-classified
ones. -/
theorem c8_soft_degrade (st : LLMState) (prompt : String) (costLimit : Option ℚ)
    (isError : Bool) (message : String)
    (hguard : ¬ st.totalCost + estimateCost prompt > effectiveLimit st costLimit)
    (hnc : ¬ (isError = true ∧ strIncludes message "cost limit" = true)) :
    (understandCode st prompt costLimit (RemoteOutcome.raise isError message)).outcome
      = Except.ok fallbackUnderstanding
    ∧ fallbackUnderstanding.confidence = 1 / 10
    ∧ fallbackUnderstanding.mainFunctions = []
    ∧ fallbackUnderstanding.edgeCases = []
    ∧ fallbackUnderstanding.errorConditions = []
    ∧ fallbackUnderstanding.testScenarios = []
    ∧ (∀ remote e,
        (understandCode st prompt costLimit remote).outcome = Except.error e →
        ∃ m, e = LLMFailure.raised m ∧ strIncludes m "cost limit" = true) := by
  have hand : (isError && strIncludes message "cost limit") = false := by
    cases hie : isError with
    | false => rfl
    | true =>
      cases his : strIncludes message "cost limit" with
      | false => rfl
      | true => exact absurd ⟨hie, his⟩ hnc
  refine ⟨?_, rfl, rfl, rfl, rfl, rfl, ?_⟩
  · have heq : understandCode st prompt costLimit (RemoteOutcome.raise isError message)
        = { outcome := Except.ok fallbackUnderstanding
            totalCost := st.totalCost
            remoteCalls := 1 } := by
      simp only [understandCode, if_neg hguard, hand, Bool.false_eq_true, if_false]
    rw [heq]
  · intro remote e he
    cases remote with
    | raise ie m =>
      simp only [understandCode, if_neg hguard] at he
      cases hb : (ie && strIncludes m "cost limit") with
      | true =>
        rw [hb] at he
        simp only [if_true] at he
        have hinj := Except.error.inj he
        exact ⟨m, hinj.symm, (Bool.and_eq_true ie (strIncludes m "cost limit")).mp hb |>.2⟩
      | false =>
        rw [hb] at he
        simp only [Bool.false_eq_true, if_false] at he
        exact absurd he (by simp)
    | reply content pt ct parsed =>
      simp only [understandCode, if_neg hguard] at he
      cases content with
      | none => exact absurd he (by simp)
      | some c =>
        cases parsed with
        | none => exact absurd he (by simp)
        | some p => exact absurd he (by simp)

/-- Witness for C8: an upstream `Error('boom')` inside the `try` block
degrades to the fallback `Understanding` instead of propagating. -/
theorem c8_soft_degrade_witness :
    (understandCode ⟨0, 10⟩ "aaaa" none (RemoteOutcome.raise true "boom")).outcome
      = Except.ok fallbackUnderstanding
    ∧ fallbackUnderstanding.confidence = 1 / 10
    ∧ fallbackUnderstanding.mainFunctions = []
    ∧ fallbackUnderstanding.edgeCases = []
    ∧ fallbackUnderstanding.errorConditions = []
    ∧ fallbackUnderstanding.testScenarios = []
    ∧ (∀ remote e,
        (understandCode ⟨0, 10⟩ "aaaa" none remote).outcome = Except.error e →
        ∃ m, e = LLMFailure.raised m ∧ strIncludes m "cost limit" = true) :=
  c8_soft_degrade ⟨0, 10⟩ "aaaa" none true "boom"
    (by simp only [effectiveLimit]
        norm_num [estimateCost, show "aaaa".length = 4 from rfl])
    (by intro h
        exact absurd h.2 (by decide))

/-! ## C6 — gate aggregation and severity toggling -/

/-- Embeds `{ r with severity := warning }`: the toggle considered by the claim. -/
def demoteToWarning (r : QualityGateRule) : QualityGateRule :=
  { r with severity := Severity.warning }

/-- The aggregate gate fails exactly when some error-severity rule fails
its comparison. -/
lemma gate_passed_false_iff (rules : List QualityGateRule) (pkg : QAInputPackage) :
    (evaluate rules pkg).passed = false ↔
      ∃ r ∈ rules, r.severity = Severity.error ∧
        evaluateRule r (getMetricValue pkg r.metric) = false := by
  have hshow : (evaluate rules pkg).passed
      = (((rules.map (evalOneRule pkg)).filter
          (fun r => !r.passed && r.rule.severity == Severity.error)).length == 0) := rfl
  rw [hshow]
  constructor
  · intro h
    have hne : (rules.map (evalOneRule pkg)).filter
        (fun r => !r.passed && r.rule.severity == Severity.error) ≠ [] := by
      intro hnil
      rw [hnil] at h
      simp at h
    obtain ⟨x, hx⟩ := List.exists_mem_of_ne_nil _ hne
    obtain ⟨hxm, hxp⟩ := List.mem_filter.mp hx
    obtain ⟨r, hr, hre⟩ := List.mem_map.mp hxm
    rw [← hre] at hxp
    have h2 := (Bool.and_eq_true _ _).mp hxp
    refine ⟨r, hr, ?_, ?_⟩
    · have h3 : ((evalOneRule pkg r).rule.severity == Severity.error) = true := h2.2
      exact beq_iff_eq.mp h3
    · have h4 : (!(evalOneRule pkg r).passed) = true := h2.1
      simpa using h4
  · intro h
    obtain ⟨r, hr, hsev, hfail⟩ := h
    have hmem : evalOneRule pkg r ∈ (rules.map (evalOneRule pkg)).filter
        (fun r => !r.passed && r.rule.severity == Severity.error) := by
      apply List.mem_filter.mpr
      refine ⟨List.mem_map_of_mem _ hr, ?_⟩
      show (!(evaluateRule r (getMetricValue pkg r.metric))
        && (r.severity == Severity.error)) = true
      rw [hfail, hsev]
      rfl
    have hlen := List.length_pos.mpr (List.ne_nil_of_mem hmem)
    rw [beq_eq_false_iff_ne]
    omega

/-- Replacing one element of a list by another with the same image under
`f` leaves the mapped list unchanged. -/
lemma map_set_congr {α β : Type} (l : List α) (i : ℕ) (a : α) (f : α → β)
    (h : ∀ hi : i < l.length, f a = f (l.get ⟨i, hi⟩)) :
    (l.set i a).map f = l.map f := by
  induction l generalizing i with
  | nil => rfl
  | cons x xs ih =>
    cases i with
    | zero =>
      simp only [List.set_cons_zero, List.map_cons]
      rw [h (by simp)]
      rfl
    | succ n =>
      simp only [List.set_cons_succ, List.map_cons]
      rw [ih n (fun hn => h (Nat.succ_lt_succ hn))]

/-- Two lists with the same image under a Boolean predicate have filters
of the same length. -/
lemma filter_length_congr {α : Type} (p : α → Bool) :
    ∀ (l l' : List α), l.map p = l'.map p →
      (l.filter p).length = (l'.filter p).length := by
  intro l
  induction l with
  | nil =>
    intro l' h
    cases l' with
    | nil => rfl
    | cons y ys => simp at h
  | cons x xs ih =>
    intro l' h
    cases l' with
    | nil => simp at h
    | cons y ys =>
      simp only [List.map_cons, List.cons.injEq] at h
      obtain ⟨hxy, hrest⟩ := h
      simp only [List.filter_cons]
      rw [hxy]
      cases hpy : p y <;> simp [hpy, ih ys hrest]

/-- Demoting a rule's severity changes neither its evaluated pass/fail
nor its actual metric value. -/
lemma evalOneRule_demote (pkg : QAInputPackage) (r : QualityGateRule) :
    (evalOneRule pkg (demoteToWarning r)).passed = (evalOneRule pkg r).passed
    ∧ (evalOneRule pkg (demoteToWarning r)).actualValue
        = (evalOneRule pkg r).actualValue :=
  ⟨rfl, rfl⟩

/-- Claim C6: the aggregate `passed` is false iff at least one
error-severity rule fails its comparison; and demoting one error rule to
warning — metric, threshold and operator unchanged — leaves every
per-rule `passed` and `actualValue` identical and the summary `total` and
`passed` tallies unchanged (only the aggregate and the failed/warnings
tallies may move). -/
theorem c6_gate_aggregation (rules : List QualityGateRule) (pkg : QAInputPackage)
    (i : ℕ) (hi : i < rules.length)
    (hsev : (rules.get ⟨i, hi⟩).severity = Severity.error) :
    ((evaluate rules pkg).passed = false ↔
      ∃ r ∈ rules, r.severity = Severity.error ∧
        evaluateRule r (getMetricValue pkg r.metric) = false)
    ∧ ((evaluate (rules.set i (demoteToWarning (rules.get ⟨i, hi⟩))) pkg).rules.map
          (fun rr => (rr.passed, rr.actualValue))
        = (evaluate rules pkg).rules.map (fun rr => (rr.passed, rr.actualValue)))
    ∧ (evaluate (rules.set i (demoteToWarning (rules.get ⟨i, hi⟩))) pkg).summary.total
        = (evaluate rules pkg).summary.total
    ∧ (evaluate (rules.set i (demoteToWarning (rules.get ⟨i, hi⟩))) pkg).summary.passed
        = (evaluate rules pkg).summary.passed := by
  have hdem := evalOneRule_demote pkg (rules.get ⟨i, hi⟩)
  refine ⟨gate_passed_false_iff rules pkg, ?_, ?_, ?_⟩
  · show ((rules.set i (demoteToWarning (rules.get ⟨i, hi⟩))).map (evalOneRule pkg)).map
        (fun rr => (rr.passed, rr.actualValue))
      = (rules.map (evalOneRule pkg)).map (fun rr => (rr.passed, rr.actualValue))
    rw [List.map_map, List.map_map]
    apply map_set_congr rules i (demoteToWarning (rules.get ⟨i, hi⟩))
      ((fun rr => (rr.passed, rr.actualValue)) ∘ evalOneRule pkg)
    intro hi2
    show ((evalOneRule pkg (demoteToWarning (rules.get ⟨i, hi⟩))).passed,
          (evalOneRule pkg (demoteToWarning (rules.get ⟨i, hi⟩))).actualValue)
      = ((evalOneRule pkg (rules.get ⟨i, hi2⟩)).passed,
          (evalOneRule pkg (rules.get ⟨i, hi2⟩)).actualValue)
    rw [hdem.1, hdem.2]
  · show ((rules.set i (demoteToWarning (rules.get ⟨i, hi⟩))).map (evalOneRule pkg)).length
      = (rules.map (evalOneRule pkg)).length
    rw [List.length_map, List.length_map, List.length_set]
  · show (((rules.set i (demoteToWarning (rules.get ⟨i, hi⟩))).map
        (evalOneRule pkg)).filter (fun r => r.passed)).length
      = ((rules.map (evalOneRule pkg)).filter (fun r => r.passed)).length
    apply filter_length_congr
    rw [List.map_map, List.map_map]
    apply map_set_congr rules i (demoteToWarning (rules.get ⟨i, hi⟩))
      ((fun rr => rr.passed) ∘ evalOneRule pkg)
    intro hi2
    show (evalOneRule pkg (demoteToWarning (rules.get ⟨i, hi⟩))).passed
      = (evalOneRule pkg (rules.get ⟨i, hi2⟩)).passed
    rw [hdem.1]

/-- The default complexity rule with severity raised to error, used by
the C6 witness. -/
def ruleC : QualityGateRule :=
  { id := "max-complexity", name := "Maximum Cyclomatic Complexity"
    metric := Metric.complexity, threshold := 50, operator := Operator.lte
    severity := Severity.error
    message := "Cyclomatic complexity should not exceed 50" }

/-- A package whose target has cyclomatic complexity 60, used by the C6
witness. -/
def pkg0 : QAInputPackage :=
  { understanding :=
      { target :=
          { file := "t.ts", purpose := "demo", mainFunctions := []
            complexity := ⟨60, 0, 0, 0, 0⟩ }
        confidence := 1 / 2
        completeness := 1 }
    insights := { testability := "high" }
    security := none }

/-- Witness for C6 at one failing error-severity complexity rule. -/
theorem c6_gate_aggregation_witness :
    ((evaluate [ruleC] pkg0).passed = false ↔
      ∃ r ∈ [ruleC], r.severity = Severity.error ∧
        evaluateRule r (getMetricValue pkg0 r.metric) = false)
    ∧ ((evaluate ([ruleC].set 0 (demoteToWarning ruleC)) pkg0).rules.map
          (fun rr => (rr.passed, rr.actualValue))
        = (evaluate [ruleC] pkg0).rules.map (fun rr => (rr.passed, rr.actualValue)))
    ∧ (evaluate ([ruleC].set 0 (demoteToWarning ruleC)) pkg0).summary.total
        = (evaluate [ruleC] pkg0).summary.total
    ∧ (evaluate ([ruleC].set 0 (demoteToWarning ruleC)) pkg0).summary.passed
        = (evaluate [ruleC] pkg0).summary.passed :=
  c6_gate_aggregation [ruleC] pkg0 0 (by decide) rfl

/-! ## C9 — relevance filter for LLM context dependencies -/

/-- Claim C9 (amended): every dependency kept by
`selectRelevantDependencies` exports at least one name equal to the
module specifier (the `from` field) of one of the target's import
statements — the filter compares export names to import sources, not to
the names the imports bring in. -/
theorem c9_relevance_filter (target : ParsedFile) (dependencies : List ParsedFile)
    (dep : ParsedFile) (hmem : dep ∈ selectRelevantDependencies target dependencies) :
    ∃ e ∈ dep.exports, ∃ i ∈ target.imports, e.name = i.fromPath := by
  simp only [selectRelevantDependencies] at hmem
  have h2 := (List.mem_filter.mp hmem).2
  simp only [List.any_eq_true] at h2
  obtain ⟨nm, hnm, hcont⟩ := h2
  obtain ⟨e, he, hen⟩ := List.mem_map.mp hnm
  have hmemUsed : nm ∈ target.imports.map (fun i => i.fromPath) := by
    simpa using hcont
  obtain ⟨imp, himp, hif⟩ := List.mem_map.mp hmemUsed
  exact ⟨e, he, imp, himp, by rw [hen, ← hif]⟩

/-- The target of the C9 counterexample: it imports the name `bar` from
the module `./foo`. -/
def target9 : ParsedFile :=
  { path := "t.ts", content := "", functions := [], classes := []
    imports := [{ fromPath := "./foo", imports := ["bar"], isTypeOnly := false,
                  defaultImport := none }]
    exports := [] }

/-- The dependency of the C9 counterexample: its only export is named
`./foo` — equal to the import source, but not to any imported name. -/
def dep9 : ParsedFile :=
  { path := "d.ts", content := "", functions := [], classes := [], imports := []
    exports := [{ name := "./foo", type := "constant" }] }

/-- Counterexample to C9 as stated: `dep9` is kept by the filter although
none of its export names is among the names the target's import
statements bring in (`specImportedNames`), because the code compares
export names against import module specifiers. -/
theorem c9_counterexample :
    selectRelevantDependencies target9 [dep9] = [dep9]
    ∧ dep9.exports.map (fun e => e.name) = ["./foo"]
    ∧ specImportedNames target9 = ["bar"]
    ∧ (specImportedNames target9).contains "./foo" = false := by
  refine ⟨by decide, by decide, by decide, by decide⟩

/-- Witness for C9 (amended) at the counterexample fixture. -/
theorem c9_relevance_filter_witness :
    ∃ e ∈ dep9.exports, ∃ i ∈ target9.imports, e.name = i.fromPath :=
  c9_relevance_filter target9 [dep9] dep9 (by decide)

/-! ## C10 — depth 0 is replaced by the default depth 2 -/

/-- Claim C10: `options?.maxDependencyDepth || 2` replaces the falsy
depth `0` (and an absent value) by the default `2`, so requesting depth 0
behaves exactly like requesting depth 2 and dependency discovery still
runs — on the one-edge graph of `plugin1` it returns the non-root unit
`fileX`. -/
theorem c10_depth_zero_default (o0 o2 : ProcessOptions)
    (h0 : o0.maxDependencyDepth = some 0) (h2 : o2.maxDependencyDepth = some 2) :
    processMaxDepth (some o0) = 2
    ∧ processMaxDepth (some o0) = processMaxDepth (some o2)
    ∧ discoverDependencies plugin1 rootF "" (processMaxDepth (some o0)) 10
        = some ([fileX], ["x.ts"])
    ∧ ([fileX] : List ParsedFile) ≠ [] := by
  have hd0 : processMaxDepth (some o0) = 2 := by
    simp [processMaxDepth, h0]
  have hd2 : processMaxDepth (some o2) = 2 := by
    simp [processMaxDepth, h2]
  refine ⟨hd0, by rw [hd0, hd2], ?_, by decide⟩
  rw [hd0]
  decide

/-- Witness for C10 at concrete options records. -/
theorem c10_depth_zero_default_witness :
    processMaxDepth (some ⟨some 0, none, none, none⟩) = 2
    ∧ processMaxDepth (some ⟨some 0, none, none, none⟩)
        = processMaxDepth (some ⟨some 2, none, none, none⟩)
    ∧ discoverDependencies plugin1 rootF ""
        (processMaxDepth (some ⟨some 0, none, none, none⟩)) 10
        = some ([fileX], ["x.ts"])
    ∧ ([fileX] : List ParsedFile) ≠ [] :=
  c10_depth_zero_default ⟨some 0, none, none, none⟩ ⟨some 2, none, none, none⟩ rfl rfl

/-! ## C2/C3/C4 — dependency discovery -/

/-- Every queue entry produced by one expansion is a successfully parsed
dependency of the expanded file, enqueued at `depth + 1`. -/
lemma expandDeps_entries (plugin : LanguagePlugin) (discovered : List String)
    (deps : List Dependency) (depth : ℕ) :
    ∀ e ∈ (expandDeps plugin discovered deps depth).1,
      e.2 = depth + 1 ∧ ∃ dep ∈ deps, plugin.parseFile dep.path = some e.1 := by
  induction deps with
  | nil => intro e he; exact absurd he (by simp [expandDeps])
  | cons dep rest ih =>
    intro e he
    simp only [expandDeps] at he
    by_cases hc : discovered.contains dep.path
    · rw [if_pos hc] at he
      obtain ⟨h1, d, hd, h2⟩ := ih e he
      exact ⟨h1, d, List.mem_cons_of_mem dep hd, h2⟩
    · rw [if_neg hc] at he
      cases hp : plugin.parseFile dep.path with
      | some depFile =>
        rw [hp] at he
        rcases List.mem_cons.mp he with heq | htail
        · rw [heq]
          exact ⟨rfl, dep, List.mem_cons_self dep rest, hp⟩
        · obtain ⟨h1, d, hd, h2⟩ := ih e htail
          exact ⟨h1, d, List.mem_cons_of_mem dep hd, h2⟩
      | none =>
        rw [hp] at he
        obtain ⟨h1, d, hd, h2⟩ := ih e he
        exact ⟨h1, d, List.mem_cons_of_mem dep hd, h2⟩

/-- One expansion never calls `parseFile` on a path already in the
`discovered` set it reads. -/
lemma expandDeps_calls_avoid (plugin : LanguagePlugin) (discovered : List String)
    (deps : List Dependency) (depth : ℕ) (q : String) (hq : q ∈ discovered) :
    q ∉ (expandDeps plugin discovered deps depth).2 := by
  induction deps with
  | nil => simp [expandDeps]
  | cons dep rest ih =>
    simp only [expandDeps]
    by_cases hc : discovered.contains dep.path
    · rw [if_pos hc]
      exact ih
    · rw [if_neg hc]
      have hne : q ≠ dep.path := by
        intro heq
        exact hc (List.elem_iff.mpr (heq ▸ hq))
      cases hp : plugin.parseFile dep.path with
      | some depFile =>
        intro hmem
        rcases List.mem_cons.mp hmem with heq | htail
        · exact hne heq
        · exact ih htail
      | none =>
        intro hmem
        rcases List.mem_cons.mp hmem with heq | htail
        · exact hne heq
        · exact ih htail

/-- Main loop invariant for `discoverLoop`: starting from a state whose
recorded files are path-deduplicated, covered by the `discovered` set,
root-free and reachable at recorded depths `1 ≤ n < maxDepth`, and whose
queue entries are reachable at their queued depths, a completed run
returns a result list that is path-deduplicated, root-free and reachable
within `maxDepth - 1` edges. -/
lemma discoverLoop_invariant (plugin : LanguagePlugin) (projectRoot : String)
    (rootFile : ParsedFile) (maxDepth : ℕ) :
    ∀ (fuel : ℕ) (st : DiscState) (F : List ParsedFile) (C : List String),
      discoverLoop plugin projectRoot maxDepth fuel st = some (F, C) →
      (st.files.map (fun f => f.path)).Nodup →
      (∀ f ∈ st.files, f.path ∈ st.discovered) →
      rootFile.path ∈ st.discovered →
      rootFile.path ∉ st.files.map (fun f => f.path) →
      (∀ f ∈ st.files, ∃ n, 1 ≤ n ∧ n < maxDepth ∧ Reach plugin projectRoot rootFile n f) →
      (∀ e ∈ st.queue, Reach plugin projectRoot rootFile e.2 e.1) →
      (F.map (fun f => f.path)).Nodup
      ∧ rootFile.path ∉ F.map (fun f => f.path)
      ∧ (∀ f ∈ F, ∃ n, 1 ≤ n ∧ n < maxDepth ∧ Reach plugin projectRoot rootFile n f) := by
  intro fuel
  induction fuel with
  | zero =>
    intro st F C hrun
    exact absurd hrun (by simp [discoverLoop])
  | succ fuel ih =>
    intro st F C hrun h1 h2 h3 h4 h5 h6
    cases hq : st.queue with
    | nil =>
      simp only [discoverLoop, hq] at hrun
      have hFC : st.files = F ∧ st.calls = C := by
        have := Option.some.inj hrun
        exact ⟨congrArg Prod.fst this, congrArg Prod.snd this⟩
      rw [← hFC.1]
      exact ⟨h1, h4, h5⟩
    | cons head rest =>
      obtain ⟨currentFile, depth⟩ := head
      simp only [discoverLoop, hq] at hrun
      by_cases hd : maxDepth ≤ depth
      · rw [if_pos hd] at hrun
        exact ih _ F C hrun h1 h2 h3 h4 h5
          (fun e he => h6 e (hq ▸ List.mem_cons_of_mem _ he))
      · rw [if_neg hd] at hrun
        by_cases hv : st.discovered.contains currentFile.path
        · rw [if_pos hv] at hrun
          exact ih _ F C hrun h1 h2 h3 h4 h5
            (fun e he => h6 e (hq ▸ List.mem_cons_of_mem _ he))
        · rw [if_neg hv] at hrun
          have hcur : Reach plugin projectRoot rootFile depth currentFile :=
            h6 (currentFile, depth) (hq ▸ List.mem_cons_self _ _)
          have hnotdisc : currentFile.path ∉ st.discovered := by
            intro hmem
            exact hv (List.elem_iff.mpr hmem)
          apply ih _ F C hrun
          · -- new files list still path-deduplicated
            by_cases hdep : 0 < depth
            · simp only [if_pos hdep]
              rw [List.map_append]
              rw [List.nodup_append]
              refine ⟨h1, by simp, ?_⟩
              intro a ha hb
              simp only [List.map_cons, List.map_nil, List.mem_cons,
                List.not_mem_nil, or_false] at hb
              obtain ⟨f, hf, hfa⟩ := List.mem_map.mp ha
              rw [hb] at hfa
              exact hnotdisc (hfa ▸ h2 f hf)
            · simp only [if_neg hdep]
              exact h1
          · -- new files covered by the new discovered set
            intro f hf
            by_cases hdep : 0 < depth
            · simp only [if_pos hdep] at hf
              rcases List.mem_append.mp hf with hold | hnew
              · exact List.mem_append_left _ (h2 f hold)
              · simp only [List.mem_cons, List.not_mem_nil, or_false] at hnew
                rw [hnew]
                exact List.mem_append_right _ (List.mem_cons_self _ _)
            · simp only [if_neg hdep] at hf
              exact List.mem_append_left _ (h2 f hf)
          · exact List.mem_append_left _ h3
          · -- root still excluded
            by_cases hdep : 0 < depth
            · simp only [if_pos hdep]
              rw [List.map_append]
              intro hmem
              rcases List.mem_append.mp hmem with hold | hnew
              · exact h4 hold
              · simp only [List.map_cons, List.map_nil, List.mem_cons,
                  List.not_mem_nil, or_false] at hnew
                exact hnotdisc (hnew ▸ h3)
            · simp only [if_neg hdep]
              exact h4
          · -- new files reachable at depths in [1, maxDepth)
            intro f hf
            by_cases hdep : 0 < depth
            · simp only [if_pos hdep] at hf
              rcases List.mem_append.mp hf with hold | hnew
              · exact h5 f hold
              · simp only [List.mem_cons, List.not_mem_nil, or_false] at hnew
                exact ⟨depth, hdep, by omega, hnew ▸ hcur⟩
            · simp only [if_neg hdep] at hf
              exact h5 f hf
          · -- new queue entries reachable at their depths
            intro e he
            rcases List.mem_append.mp he with hrest | hnew
            · exact h6 e (hq ▸ List.mem_cons_of_mem _ hrest)
            · obtain ⟨he2, dep, hdep2, hp⟩ := expandDeps_entries plugin
                (st.discovered ++ [currentFile.path])
                (plugin.findDependencies currentFile projectRoot) depth e hnew
              have : Reach plugin projectRoot rootFile (depth + 1) e.1 :=
                Reach.step hcur hdep2 hp
              rw [he2]
              exact this

/-- Claim C4: every unit in the list returned by `discoverDependencies`
is reachable from the root within `maxDepth` import edges, no path occurs
twice in the returned list, and the root unit itself is not in the
returned list. -/
theorem c4_traversal_result (plugin : LanguagePlugin) (rootFile : ParsedFile)
    (projectRoot : String) (maxDepth fuel : ℕ) (F : List ParsedFile) (C : List String)
    (hrun : discoverDependencies plugin rootFile projectRoot maxDepth fuel = some (F, C)) :
    (∀ f ∈ F, ∃ n, n ≤ maxDepth ∧ Reach plugin projectRoot rootFile n f)
    ∧ (F.map (fun f => f.path)).Nodup
    ∧ rootFile ∉ F := by
  cases fuel with
  | zero => exact absurd hrun (by simp [discoverDependencies, discoverLoop])
  | succ fuel =>
    simp only [discoverDependencies, discoverLoop] at hrun
    by_cases hd : maxDepth ≤ 0
    · rw [if_pos hd] at hrun
      cases fuel with
      | zero => exact absurd hrun (by simp [discoverLoop])
      | succ fuel2 =>
        simp only [discoverLoop] at hrun
        have hF : ([] : List ParsedFile) = F :=
          congrArg Prod.fst (Option.some.inj hrun)
        rw [← hF]
        refine ⟨by simp, by simp, by simp⟩
    · rw [if_neg hd] at hrun
      have hv : ¬ (([] : List String).contains rootFile.path = true) := by simp
      rw [if_neg hv] at hrun
      have hinv := discoverLoop_invariant plugin projectRoot rootFile maxDepth fuel
        { queue := [] ++ (expandDeps plugin ([] ++ [rootFile.path])
            (plugin.findDependencies rootFile projectRoot) 0).1
          discovered := [] ++ [rootFile.path]
          files := if 0 < 0 then [] ++ [rootFile] else []
          calls := [] ++ (expandDeps plugin ([] ++ [rootFile.path])
            (plugin.findDependencies rootFile projectRoot) 0).2 } F C
        hrun (by simp) (by simp) (by simp) (by simp) (by simp) ?_
      · refine ⟨?_, hinv.1, ?_⟩
        · intro f hf
          obtain ⟨n, hn1, hn2, hr⟩ := hinv.2.2 f hf
          exact ⟨n, by omega, hr⟩
        · intro hmem
          exact hinv.2.1 (List.mem_map_of_mem (fun f => f.path) hmem)
      · intro e he
        simp only [List.nil_append] at he
        obtain ⟨he2, dep, hdep2, hp⟩ := expandDeps_entries plugin
          ([] ++ [rootFile.path]) (plugin.findDependencies rootFile projectRoot) 0 e he
        rw [he2]
        exact Reach.step Reach.refl hdep2 hp

/-- Witness for C4 at the duplicate-edge graph of `plugin2` with depth 2:
the run returns `[fileX]`, deduplicated, root-free and reachable. -/
theorem c4_traversal_result_witness :
    (∀ f ∈ [fileX], ∃ n, n ≤ 2 ∧ Reach plugin2 "" rootF n f)
    ∧ (([fileX] : List ParsedFile).map (fun f => f.path)).Nodup
    ∧ rootF ∉ [fileX] :=
  c4_traversal_result plugin2 rootF "" 2 10 [fileX] ["x.ts", "x.ts"] (by decide)

/-- Counterexample to C2 as stated: with `maxDepth = 1` on the one-edge
graph `r.ts → x.ts`, the unit `fileX` is parsed (the call log records
`x.ts`) and is first reachable at depth exactly 1 = maxDepth, yet the
returned list is empty — a unit dequeued at depth ≥ maxDepth is dropped,
not recorded. -/
theorem c2_counterexample :
    discoverDependencies plugin1 rootF "" 1 10 = some ([], ["x.ts"])
    ∧ Reach plugin1 "" rootF 1 fileX
    ∧ fileX ∉ ([] : List ParsedFile) := by
  refine ⟨by decide, ?_, by simp⟩
  have hdep : depX ∈ plugin1.findDependencies rootF "" := by
    show depX ∈ [depX]
    exact List.mem_singleton.mpr rfl
  exact Reach.step Reach.refl hdep (by decide)

/-- Claim C2 (amended): a unit dequeued at depth ≥ maxDepth is skipped
entirely — it is neither expanded nor recorded, even when its depth is
positive: the run's result and call log are exactly those of the run
without that queue entry. -/
theorem c2_skip_at_max_depth (plugin : LanguagePlugin) (projectRoot : String)
    (maxDepth fuel : ℕ) (currentFile : ParsedFile) (depth : ℕ)
    (rest : List (ParsedFile × ℕ)) (discovered : List String)
    (files : List ParsedFile) (calls : List String)
    (hdepth : maxDepth ≤ depth) :
    discoverLoop plugin projectRoot maxDepth (fuel + 1)
        { queue := (currentFile, depth) :: rest, discovered := discovered
          files := files, calls := calls }
      = discoverLoop plugin projectRoot maxDepth fuel
        { queue := rest, discovered := discovered, files := files, calls := calls } := by
  simp only [discoverLoop, if_pos hdepth]

/-- Witness for C2 (amended): the depth-1 entry of the `plugin1` run at
`maxDepth = 1` contributes nothing. -/
theorem c2_skip_at_max_depth_witness :
    discoverLoop plugin1 "" 1 (8 + 1)
        { queue := [(fileX, 1)], discovered := ["r.ts"]
          files := [], calls := ["x.ts"] }
      = discoverLoop plugin1 "" 1 8
        { queue := [], discovered := ["r.ts"], files := [], calls := ["x.ts"] } :=
  c2_skip_at_max_depth plugin1 "" 1 8 fileX 1 [] ["r.ts"] [] ["x.ts"]
    (Nat.le_refl 1)

/-- Counterexample to C3 as stated: when the root's dependency list
mentions the path `x.ts` through two edges, one run calls
`plugin.parseFile` twice for that single distinct path (the `discovered`
set is only updated at dequeue time, not when a batch is resolved). -/
theorem c3_counterexample :
    discoverDependencies plugin2 rootF "" 2 10 = some ([fileX], ["x.ts", "x.ts"])
    ∧ (["x.ts", "x.ts"] : List String).count "x.ts" = 2 := by
  refine ⟨by decide, by decide⟩

/-- Claim C3 (amended): once a path has been visited (is in the
`discovered` set), no later `parseFile` call targets it — the call log
gains no further occurrences of that path for the rest of the run. -/
theorem c3_no_reparse_after_visit (plugin : LanguagePlugin) (projectRoot : String)
    (maxDepth : ℕ) :
    ∀ (fuel : ℕ) (st : DiscState) (F : List ParsedFile) (C : List String) (q : String),
      discoverLoop plugin projectRoot maxDepth fuel st = some (F, C) →
      q ∈ st.discovered →
      C.count q = st.calls.count q := by
  intro fuel
  induction fuel with
  | zero =>
    intro st F C q hrun
    exact absurd hrun (by simp [discoverLoop])
  | succ fuel ih =>
    intro st F C q hrun hq
    cases hqu : st.queue with
    | nil =>
      simp only [discoverLoop, hqu] at hrun
      have hC : st.calls = C := congrArg Prod.snd (Option.some.inj hrun)
      rw [hC]
    | cons head rest =>
      obtain ⟨currentFile, depth⟩ := head
      simp only [discoverLoop, hqu] at hrun
      by_cases hd : maxDepth ≤ depth
      · rw [if_pos hd] at hrun
        exact ih
          { queue := rest, discovered := st.discovered, files := st.files,
            calls := st.calls } F C q hrun hq
      · rw [if_neg hd] at hrun
        by_cases hv : st.discovered.contains currentFile.path
        · rw [if_pos hv] at hrun
          exact ih
            { queue := rest, discovered := st.discovered, files := st.files,
              calls := st.calls } F C q hrun hq
        · rw [if_neg hv] at hrun
          have hq2 : q ∈ st.discovered ++ [currentFile.path] :=
            List.mem_append_left _ hq
          have hrec := ih
            { queue := rest ++ (expandDeps plugin
                  (st.discovered ++ [currentFile.path])
                  (plugin.findDependencies currentFile projectRoot) depth).1,
              discovered := st.discovered ++ [currentFile.path],
              files := if 0 < depth then st.files ++ [currentFile] else st.files,
              calls := st.calls ++ (expandDeps plugin
                  (st.discovered ++ [currentFile.path])
                  (plugin.findDependencies currentFile projectRoot) depth).2 }
            F C q hrun hq2
          rw [hrec]
          show (st.calls ++ (expandDeps plugin (st.discovered ++ [currentFile.path])
              (plugin.findDependencies currentFile projectRoot) depth).2).count q
            = st.calls.count q
          rw [List.count_append]
          have hz : ((expandDeps plugin (st.discovered ++ [currentFile.path])
              (plugin.findDependencies currentFile projectRoot) depth).2).count q = 0 :=
            List.count_eq_zero.mpr (expandDeps_calls_avoid plugin _ _ depth q hq2)
          rw [hz]
          omega

/-- Witness for C3 (amended): in a run over `plugin2` starting with the
path `"z"` already visited, the final call log (`["x.ts", "x.ts"]`)
contains no occurrence of `"z"`, matching the starting log. -/
theorem c3_no_reparse_after_visit_witness :
    (["x.ts", "x.ts"] : List String).count "z" = ([] : List String).count "z" :=
  c3_no_reparse_after_visit plugin2 "" 2 10
    { queue := [(rootF, 0)], discovered := ["z"], files := [], calls := [] }
    [fileX] ["x.ts", "x.ts"] "z" (by decide) (by decide)
